import Mathlib

/-!
Verification of the rustpack packager (src/src/main.rs) against its
natural-language specification.

The development shallowly embeds the parts of the program the claims are
about:

* the platform/arch normalization and binary resolution performed by the
  embedded bootstrap shell script (the `BOOTSTRAP_SCRIPT` constant,
  src/src/main.rs lines 81-213);
* the package-assembly control flow around `copy_assets` and
  `build_package` (lines 774-984), with the file system abstracted to an
  existence predicate and archive creation recorded as events;
* the binary diff/patch engine `create_binary_patch` /
  `apply_binary_patch` (lines 1160-1243), including the textual
  `offset:length:base64` patch encoding;
* the checksum/signing pipeline `calculate_checksum` / `sign_package`
  (lines 751-772), with SHA-256, HMAC and base64 spelled out.

Bytes are modelled as `Nat` (with explicit `% 2^32` arithmetic inside
SHA-256); file contents are `List Nat`; text is `List Char`; fallible
operations return `Option` or `Except`.
-/

/-! ## Generic string and list helpers -/

/-- Substring test on character lists: does `needle` occur contiguously in
`hay`?  Used to model the shell `grep -q "mingw\|cygwin\|msys"` substring
match and `echo "$*" | grep -q -- --cleanup` in the bootstrap script. -/
def listContainsSub (needle hay : List Char) : Bool :=
  match hay with
  | [] => needle.isEmpty
  | _ :: t => needle.isPrefixOf hay || listContainsSub needle t

/-- Substring test on strings (models shell `grep -q` fixed-substring use). -/
def strContains (hay needle : String) : Bool :=
  listContainsSub needle.data hay.data

/-- Remove the first occurrence of `pat` from `hay` (models the single,
non-global sed substitution deleting the literal `--cleanup` in the
bootstrap script, line 122). -/
def removeFirstSub (hay pat : List Char) : List Char :=
  match hay with
  | [] => []
  | c :: t =>
    if pat ≠ [] ∧ pat.isPrefixOf (c :: t) then (c :: t).drop pat.length
    else c :: removeFirstSub t pat

/-- String version of `removeFirstSub`. -/
def strRemoveFirst (hay pat : String) : String :=
  ⟨removeFirstSub hay.data pat.data⟩

/-- Split a character list at the first `':'`, returning the part before and
the part after it, or `none` when there is no `':'`.  Building block for the
model of Rust `str::splitn(3, ':')`. -/
def splitFirstColon (l : List Char) : Option (List Char × List Char) :=
  match l with
  | [] => none
  | c :: t =>
    if c = ':' then some ([], t)
    else match splitFirstColon t with
      | none => none
      | some (pre, post) => some (c :: pre, post)

/-- Model of Rust `str::splitn(n, ':')`: split into at most `n` fields on
`':'`; the last field keeps any remaining colons.  `apply_binary_patch`
uses `splitn(3, ':')` on every patch line (src/src/main.rs line 1221). -/
def splitn (n : Nat) (l : List Char) : List (List Char) :=
  match n with
  | 0 => [l]
  | 1 => [l]
  | m + 1 =>
    match splitFirstColon l with
    | none => [l]
    | some (pre, post) => pre :: splitn m post

/-! ## Platform resolver (BOOTSTRAP_SCRIPT lines 87-110) -/

/-- Kernel-name normalization performed by the bootstrap script
(src/src/main.rs lines 90-98): the `uname -s` output, already lowercased by
`tr`, is mapped to a platform tag. -/
def normalizePlatform (kernel : String) : String :=
  if kernel = "darwin" then "macos"
  else if kernel = "linux" then "linux"
  else if strContains kernel "mingw" || strContains kernel "cygwin" ||
      strContains kernel "msys" then "windows"
  else "unknown"

/-- Machine-name normalization performed by the bootstrap script
(src/src/main.rs lines 100-110) on the raw `uname -m` output. -/
def normalizeArch (arch : String) : String :=
  if arch = "x86_64" ∨ arch = "amd64" then "x86_64"
  else if arch = "arm64" ∨ arch = "aarch64" then "aarch64"
  else if arch = "i386" ∨ arch = "i686" then "x86"
  else if arch = "arm" ∨ arch = "armv7l" then "arm"
  else "unknown"

/-! ## Manifest model and bootstrap launch protocol -/

/-- One manifest target entry (struct `TargetInfo`, src/src/main.rs
lines 40-48). -/
structure TargetInfo where
  platform : String
  arch : String
  binary_path : String
  features : List String
  optimizations : Option String
  compatibility : List String
deriving DecidableEq, Repr

/-- The package manifest (struct `PackageInfo`, src/src/main.rs
lines 28-38); `metadata` is modelled as an association list. -/
structure PackageInfo where
  name : String
  version : String
  description : Option String
  targets : List TargetInfo
  created_at : String
  checksum : String
  features : List String
  metadata : List (String × String)
deriving DecidableEq, Repr

/-- Whether a target entry matches the host pair, as the jq filter
`select(.platform == $platform and .arch == $arch)` does
(src/src/main.rs line 116). -/
def targetMatches (platform arch : String) (t : TargetInfo) : Bool :=
  t.platform == platform && t.arch == arch

/-- The value of `BINARY_PATH` in the bootstrap script (src/src/main.rs
line 116): `jq -r` prints the `binary_path` of every matching target on its
own line, and command substitution joins them (stripping the trailing
newline), so the result is the newline-join of all matches, and the empty
string when nothing matches. -/
def resolveBinaryPath (targets : List TargetInfo) (platform arch : String) : String :=
  String.intercalate "\n"
    ((targets.filter (targetMatches platform arch)).map TargetInfo.binary_path)

/-- Process-terminating outcomes of the bootstrap script. -/
inductive BootAction where
  /-- Line 123: `exec` of the resolved binary with the sed-stripped
  argument string (cleanup branch). -/
  | execCleanup (path : String) (argString : String)
  /-- Line 126: `exec` of the resolved binary forwarding `"$@"` verbatim. -/
  | execDirect (path : String) (args : List String)
  /-- `echo` of a diagnostic followed by `exit` with the given code. -/
  | exitWithError (message : String) (code : Nat)
  /-- The `--check-updates` handler (line 192). -/
  | runCheckUpdates
  /-- The `--update` handler (line 197). -/
  | runUpdate
  /-- The `--replace-with-update` handler moving the artifact over the
  given path (line 203). -/
  | selfReplace (target : String)
  /-- Plain `exit 0` (line 211). -/
  | exitOk
deriving DecidableEq, Repr

/-- The launch block of the bootstrap script (src/src/main.rs
lines 118-131): if `BINARY_PATH` is non-empty, `chmod +x` and `exec` it
(stripping a recognized `--cleanup` flag from the forwarded arguments),
otherwise print the no-compatible-binary diagnostic and `exit 1`.  Every
branch of this block terminates the process. -/
def bootstrapLaunch (targets : List TargetInfo) (platform arch : String)
    (args : List String) : BootAction :=
  let binaryPath := resolveBinaryPath targets platform arch
  if binaryPath ≠ "" then
    let argStr := String.intercalate " " args
    if strContains argStr "--cleanup" then
      .execCleanup ("$TEMP_DIR/rustpack/" ++ binaryPath)
        (strRemoveFirst argStr "--cleanup")
    else
      .execDirect ("$TEMP_DIR/rustpack/" ++ binaryPath) args
  else
    .exitWithError ("Error: No compatible binary found for " ++ platform ++ "-" ++ arch) 1

/-- The auxiliary-subcommand dispatch of the bootstrap script
(src/src/main.rs lines 191-210): the first positional argument selects the
version-check, update, or self-replace handler; otherwise no subcommand is
selected. -/
def bootstrapDispatchAfter (args : List String) : Option BootAction :=
  if args.headD "" = "--check-updates" then some .runCheckUpdates
  else if args.headD "" = "--update" then some .runUpdate
  else if args.headD "" = "--replace-with-update" then
    some (if args.getD 1 "" ≠ "" then .selfReplace (args.getD 1 "")
          else .exitWithError "Missing target path for update" 1)
  else none

/-- Sequential execution of script steps: the first step that terminates
the process determines the outcome; a script that falls off the end
exits 0. -/
def runSteps (steps : List (Option BootAction)) : BootAction :=
  match steps with
  | [] => .exitOk
  | some act :: _ => act
  | none :: rest => runSteps rest

/-- Top-level control flow of the bootstrap script in the order its
statements appear in the source: the launch block (lines 118-131) comes
first and terminates the process in every branch; the auxiliary-subcommand
dispatch (lines 191-210) and the final `exit 0` (line 211) follow it in
the text. -/
def bootstrapScriptModel (targets : List TargetInfo) (platform arch : String)
    (args : List String) : BootAction :=
  runSteps
    [ some (bootstrapLaunch targets platform arch args),
      bootstrapDispatchAfter args,
      some .exitOk ]

/-- The file path `exec`-ed by a boot action, when it launches a binary. -/
def launchedPath (a : BootAction) : Option String :=
  match a with
  | .execCleanup p _ => some p
  | .execDirect p _ => some p
  | _ => none

/-! ## Package assembler (src/src/main.rs lines 774-984) -/

/-- The asset-copying loop of `copy_assets` (src/src/main.rs
lines 949-981): assets are visited in declared order and the first one
whose source path does not exist aborts with the `Asset not found` error.
The file system is abstracted to the existence predicate `fsExists`; the
actual copying performs no further checks that the claims depend on. -/
def copy_assets (fsExists : String → Bool) (assets : List String) :
    Except String Unit :=
  match assets with
  | [] => .ok ()
  | a :: rest =>
    if fsExists a then copy_assets fsExists rest
    else .error ("Asset not found: " ++ a)

/-- The tail of `build_package` (src/src/main.rs lines 825-891) after the
per-target builds: `copy_assets` runs first and its error aborts the build
through `?`; only afterwards are the license step, the manifest write and
finally the archive creation (zip or self-extracting, the latter followed
by signing) performed.  The second component records, in order, the
externally visible steps that were executed; an `archive_created` event is
the creation of the output artifact on disk. -/
def build_package (fsExists : String → Bool) (assets : List String)
    (createZip : Bool) : Except String Unit × List String :=
  match copy_assets fsExists assets with
  | .error e => (.error e, [])
  | .ok _ =>
    if createZip then
      (.ok (), ["license_step", "manifest_written", "archive_created:zip"])
    else
      (.ok (), ["license_step", "manifest_written",
                "archive_created:self_extracting", "signed"])

/-! ## Base64 (the `base64` crate's standard alphabet with padding),
used by the patch encoding (src/src/main.rs lines 1206-1207, 1227) -/

/-- The standard base64 alphabet. -/
def b64Alphabet : List Char :=
  String.data "ABCDEFGHIJKLMNOPQRSTUVWXYZabcdefghijklmnopqrstuvwxyz0123456789+/"

/-- Character for a 6-bit value. -/
def b64CharOf (n : Nat) : Char := b64Alphabet.getD n '='

/-- 6-bit value of an alphabet character, `none` for anything else
(including `'='`). -/
def b64ValOf (c : Char) : Option Nat :=
  b64Alphabet.findIdx? (fun x => x = c)

/-- Model of `base64::encode` (standard alphabet, padded): bytes are taken
three at a time; a trailing single byte yields two characters plus `==`,
a trailing pair yields three characters plus `=`. -/
def b64encode : List Nat → List Char
  | [] => []
  | [b1] => [b64CharOf (b1 / 4), b64CharOf (b1 % 4 * 16), '=', '=']
  | [b1, b2] =>
    [b64CharOf (b1 / 4), b64CharOf (b1 % 4 * 16 + b2 / 16),
     b64CharOf (b2 % 16 * 4), '=']
  | b1 :: b2 :: b3 :: rest =>
    b64CharOf (b1 / 4) :: b64CharOf (b1 % 4 * 16 + b2 / 16) ::
    b64CharOf (b2 % 16 * 4 + b3 / 64) :: b64CharOf (b3 % 64) ::
    b64encode rest

/-- Model of `base64::decode` (standard alphabet, padding required):
characters are consumed four at a time; `=` padding is accepted only at
the very end and non-canonical trailing bits are rejected; any input whose
length is not a multiple of four, or that contains a character outside the
alphabet in a data position, fails. -/
def b64decode : List Char → Option (List Nat)
  | [] => some []
  | c1 :: c2 :: c3 :: c4 :: rest =>
    if rest = [] ∧ c3 = '=' ∧ c4 = '=' then
      match b64ValOf c1, b64ValOf c2 with
      | some v1, some v2 =>
        if v2 % 16 = 0 then some [v1 * 4 + v2 / 16] else none
      | _, _ => none
    else if rest = [] ∧ c4 = '=' then
      match b64ValOf c1, b64ValOf c2, b64ValOf c3 with
      | some v1, some v2, some v3 =>
        if v3 % 4 = 0 then some [v1 * 4 + v2 / 16, v2 % 16 * 16 + v3 / 4]
        else none
      | _, _, _ => none
    else
      match b64ValOf c1, b64ValOf c2, b64ValOf c3, b64ValOf c4,
          b64decode rest with
      | some v1, some v2, some v3, some v4, some tail =>
        some ((v1 * 4 + v2 / 16) :: (v2 % 16 * 16 + v3 / 4) ::
              (v3 % 4 * 64 + v4) :: tail)
      | _, _, _, _, _ => none
  | _ => none

/-! ## Decimal integers: `write!("{}", n)` and `str::parse::<usize>()` -/

/-- Big-endian decimal digits of `n` (each `< 10`, never empty). -/
def decDigits (n : Nat) : List Nat :=
  if _h : n < 10 then [n] else decDigits (n / 10) ++ [n % 10]
decreasing_by exact Nat.div_lt_self (by omega) (by omega)

/-- Decimal rendering of `n`, as `write!("{}", n)` produces it. -/
def decRepr (n : Nat) : List Char :=
  (decDigits n).map (fun d => Char.ofNat (48 + d))

/-- Numeric value of an ASCII digit, `none` otherwise. -/
def digitVal (c : Char) : Option Nat :=
  if '0' ≤ c ∧ c ≤ '9' then some (c.toNat - 48) else none

/-- Accumulating decimal parse of a digit string; fails on any non-digit. -/
def parseDigits (l : List Char) (acc : Nat) : Option Nat :=
  match l with
  | [] => some acc
  | c :: rest =>
    match digitVal c with
    | some d => parseDigits rest (acc * 10 + d)
    | none => none

/-- Model of Rust `str::parse::<usize>()` as used on the offset and length
fields of a patch line (src/src/main.rs lines 1225-1226): an optional
leading `+` followed by one or more ASCII digits.  (Machine-width overflow
is not modelled; the parse is exact on values the program itself writes.) -/
def parseUsize (l : List Char) : Option Nat :=
  match l with
  | [] => none
  | c :: rest =>
    if c = '+' then (if rest = [] then none else parseDigits rest 0)
    else parseDigits (c :: rest) 0

/-! ## Binary diff (`create_binary_patch`, src/src/main.rs lines 1160-1211)

The loops are written with an explicit fuel argument that makes them
structurally recursive; the wrappers instantiate the fuel with a bound the
loops can never exhaust, so the wrappers compute exactly what the source's
`while` loops do. -/

/-- The `diff_start` scan (src/src/main.rs lines 1171-1177): starting at
`i`, advance while the position is inside both buffers and the bytes
agree; any position at or beyond either length, or a byte mismatch,
stops the scan. -/
def scanMatchFuel (old new : List Nat) : Nat → Nat → Nat
  | 0, i => i
  | fuel + 1, i =>
    if i < new.length ∧ i < old.length ∧ new.getD i 0 = old.getD i 0 then
      scanMatchFuel old new fuel (i + 1)
    else i

/-- `diff_start` as a function of the scan origin. -/
def scanMatch (old new : List Nat) (i : Nat) : Nat :=
  scanMatchFuel old new (new.length - i) i

/-- The `matches` counter (src/src/main.rs lines 1185-1190): starting from
`m` (the source starts it at 1), count further agreeing in-bounds
positions after `e`, stopping at 4. -/
def countMatchesFuel (old new : List Nat) (e : Nat) : Nat → Nat → Nat
  | 0, m => m
  | fuel + 1, m =>
    if m < 4 ∧ e + m < new.length ∧ e + m < old.length ∧
        new.getD (e + m) 0 = old.getD (e + m) 0 then
      countMatchesFuel old new e fuel (m + 1)
    else m

/-- The `matches` counter with its fuel instantiated (the guard `m < 4`
bounds the loop by four steps). -/
def countMatches (old new : List Nat) (e m : Nat) : Nat :=
  countMatchesFuel old new e 4 m

/-- The break condition of the `diff_end` scan (src/src/main.rs
lines 1184-1194): position `e` agrees in-bounds and at least four
consecutive agreeing positions start there. -/
def runCond (old new : List Nat) (e : Nat) : Prop :=
  e < old.length ∧ new.getD e 0 = old.getD e 0 ∧ 4 ≤ countMatches old new e 1

instance (old new : List Nat) (e : Nat) : Decidable (runCond old new e) := by
  unfold runCond; infer_instance

/-- The `diff_end` scan (src/src/main.rs lines 1182-1197): advance from
`e` until a four-long agreeing run starts or the end of `new` is
reached. -/
def scanEndFuel (old new : List Nat) : Nat → Nat → Nat
  | 0, e => e
  | fuel + 1, e =>
    if e < new.length then
      if runCond old new e then e else scanEndFuel old new fuel (e + 1)
    else e

/-- `diff_end` as a function of its start value (`diff_start + 1` at the
call site). -/
def scanEnd (old new : List Nat) (e : Nat) : Nat :=
  scanEndFuel old new (new.length - e) e

/-- The outer diff loop (src/src/main.rs lines 1170-1203): one patch entry
`(diff_start, diff_end - diff_start, new[diff_start..diff_end])` per
changed region, resuming at `diff_end`. -/
def diffLoopFuel (old new : List Nat) : Nat → Nat → List (Nat × Nat × List Nat)
  | 0, _ => []
  | fuel + 1, offset =>
    if offset < new.length then
      let ds := scanMatch old new offset
      if ds < new.length then
        let de := scanEnd old new (ds + 1)
        (ds, de - ds, (new.drop ds).take (de - ds)) :: diffLoopFuel old new fuel de
      else []
    else []

/-- All patch entries `create_binary_patch` collects for the byte
sequences `old` and `new` (the scan starts at offset 0; the fuel
`new.length + 1` is never exhausted because the offset strictly grows). -/
def diffEntries (old new : List Nat) : List (Nat × Nat × List Nat) :=
  diffLoopFuel old new (new.length + 1) 0

/-- One line of the patch file: `writeln!(patch_file, "{}:{}:{}", offset,
length, base64::encode(data))` (src/src/main.rs lines 1205-1208). -/
def encodeEntry (e : Nat × Nat × List Nat) : List Char :=
  decRepr e.1 ++ ':' :: (decRepr e.2.1 ++ ':' :: b64encode e.2.2)

/-- `create_binary_patch` (src/src/main.rs lines 1160-1211) with the file
reads and writes abstracted away: from the old and new byte sequences to
the lines of the patch file. -/
def create_binary_patch (old new : List Nat) : List (List Char) :=
  (diffEntries old new).map encodeEntry

/-! ## Patch application (`apply_binary_patch`, src/src/main.rs
lines 1213-1243) -/

/-- The byte-store loop (src/src/main.rs lines 1232-1236): write the data
bytes at consecutive offsets; a position at or beyond the buffer length is
skipped (`List.set` is the identity out of bounds, exactly the source's
bounds check). -/
def writeData : List Nat → Nat → List Nat → List Nat
  | out, _, [] => out
  | out, off, b :: rest => writeData (out.set off b) (off + 1) rest

/-- Application of one parsed patch entry (src/src/main.rs
lines 1228-1236): grow the buffer with zero fill when `offset + length`
exceeds its length, then overwrite. -/
def applyEntry (out : List Nat) (off len : Nat) (data : List Nat) : List Nat :=
  let out1 :=
    if off + len > out.length then
      out ++ List.replicate (off + len - out.length) 0
    else out
  writeData out1 off data

/-- Folding a list of parsed entries over a buffer, in file order. -/
def applyEntries (entries : List (Nat × Nat × List Nat)) (out : List Nat) :
    List Nat :=
  entries.foldl (fun o e => applyEntry o e.1 e.2.1 e.2.2) out

/-- Processing of one patch line (src/src/main.rs lines 1220-1236): a line
that does not split into exactly three `':'`-separated fields is skipped;
otherwise the offset, the length and the base64 data are parsed, each
failure aborting the whole application through `?`. -/
def applyLine (out : List Nat) (line : List Char) : Except String (List Nat) :=
  match splitn 3 line with
  | [p0, p1, p2] =>
    match parseUsize p0 with
    | none => .error "invalid patch offset"
    | some off =>
      match parseUsize p1 with
      | none => .error "invalid patch length"
      | some len =>
        match b64decode p2 with
        | none => .error "invalid base64 data"
        | some data => .ok (applyEntry out off len data)
  | _ => .ok out

/-- The line loop of `apply_binary_patch` (src/src/main.rs
lines 1220-1237). -/
def applyLines (lines : List (List Char)) (out : List Nat) :
    Except String (List Nat) :=
  match lines with
  | [] => .ok out
  | l :: rest =>
    match applyLine out l with
    | .error e => .error e
    | .ok out2 => applyLines rest out2

/-- `apply_binary_patch` (src/src/main.rs lines 1213-1243) with the file
reads and writes abstracted away: the original bytes and the patch-file
lines to the output bytes (or the first propagated parse error). -/
def apply_binary_patch (original : List Nat) (lines : List (List Char)) :
    Except String (List Nat) :=
  applyLines lines original

/-! ## The diff pass as the specification words it (spec section 4.5)

These definitions follow the spec's description of `diff(source, target)`
- "advance while bytes at the same index are identical", "extend the
changed region until a run of at least 4 consecutive positions is found
where source and target agree again (bounds-checked against both
lengths); the run's start ends the region" - phrased through least-index
searches.  Claim C3 compares `diffEntries` against them. -/

/-- The spec's mismatch condition ending the advance-while-identical scan:
the pass leaves `target`, or the index is at or beyond `source`'s length
(which "counts as a mismatch"), or the bytes differ. -/
def specMismatchStop (old new : List Nat) (i : Nat) : Prop :=
  new.length ≤ i ∨ old.length ≤ i ∨ new.getD i 0 ≠ old.getD i 0

instance (old new : List Nat) (i : Nat) :
    Decidable (specMismatchStop old new i) := by
  unfold specMismatchStop; infer_instance

/-- The least `n` at or after `base` satisfying the decidable predicate
`P`, given that one exists at or after `base`. -/
def leastFrom (P : Nat → Prop) [DecidablePred P] (base : Nat)
    (h : ∃ n, P (base + n)) : Nat :=
  base + Nat.find h

/-- Least position at or after `offset` where the advance-while-identical
scan stops. -/
def specNextMismatch (old new : List Nat) (offset : Nat) : Nat :=
  leastFrom (specMismatchStop old new) offset
    ⟨new.length, Or.inl (Nat.le_add_left _ _)⟩

/-- The spec's agreement condition, bounds-checked against both lengths. -/
def specAgreesAt (old new : List Nat) (i : Nat) : Prop :=
  i < old.length ∧ i < new.length ∧ new.getD i 0 = old.getD i 0

instance (old new : List Nat) (i : Nat) :
    Decidable (specAgreesAt old new i) := by
  unfold specAgreesAt; infer_instance

/-- A run of at least 4 consecutive agreeing positions starts at `e`. -/
def specRunOf4At (old new : List Nat) (e : Nat) : Prop :=
  ∀ j < 4, specAgreesAt old new (e + j)

instance (old new : List Nat) (e : Nat) :
    Decidable (specRunOf4At old new e) := by
  unfold specRunOf4At; infer_instance

/-- The spec's condition ending a changed region: the start of a 4-long
agreeing run, or the end of `target`. -/
def specRegionStop (old new : List Nat) (e : Nat) : Prop :=
  new.length ≤ e ∨ specRunOf4At old new e

instance (old new : List Nat) (e : Nat) :
    Decidable (specRegionStop old new e) := by
  unfold specRegionStop; infer_instance

/-- Least position after the mismatch `ds` where the changed region ends. -/
def specRegionEnd (old new : List Nat) (ds : Nat) : Nat :=
  leastFrom (specRegionStop old new) (ds + 1)
    ⟨new.length, Or.inl (Nat.le_add_left _ _)⟩

/-- The single left-to-right pass of the spec's diff description, with the
same fuel scaffolding as `diffLoopFuel`: per changed region one entry
(region start in target, region length, target's bytes over the region),
resuming at the region's end. -/
def specDiffFuel (old new : List Nat) : Nat → Nat → List (Nat × Nat × List Nat)
  | 0, _ => []
  | fuel + 1, offset =>
    if offset < new.length then
      let ds := specNextMismatch old new offset
      if ds < new.length then
        let de := specRegionEnd old new ds
        (ds, de - ds, (new.drop ds).take (de - ds)) ::
          specDiffFuel old new fuel de
      else []
    else []

/-- The full entry list of the spec's diff description. -/
def specDiffEntries (old new : List Nat) : List (Nat × Nat × List Nat) :=
  specDiffFuel old new (new.length + 1) 0

/-! ## SHA-256, HMAC and signing (src/src/main.rs lines 751-772)

`calculate_checksum` delegates to the `sha2` crate and formats the digest
with `{:x}`; `sign_package` delegates to the `hmac` crate over the
checksum string and base64-encodes the tag.  The hash and the MAC are
spelled out here (FIPS 180-4 SHA-256, RFC 2104 HMAC) on `Nat` bytes with
explicit 32-bit truncation. -/

/-- Truncation to 32 bits. -/
def w32 (n : Nat) : Nat := n % 4294967296

/-- 32-bit right rotation (of a value already below `2 ^ 32`). -/
def rotr32 (x n : Nat) : Nat := x / 2 ^ n + x % 2 ^ n * 2 ^ (32 - n)

/-- 32-bit right shift. -/
def shr32 (x n : Nat) : Nat := x / 2 ^ n

/-- 32-bit complement. -/
def not32 (x : Nat) : Nat := Nat.xor x 4294967295

/-- The 64 SHA-256 round constants. -/
def sha256K : List Nat :=
  [1116352408, 1899447441, 3049323471, 3921009573, 961987163,
   1508970993, 2453635748, 2870763221, 3624381080, 310598401,
   607225278, 1426881987, 1925078388, 2162078206, 2614888103,
   3248222580, 3835390401, 4022224774, 264347078, 604807628,
   770255983, 1249150122, 1555081692, 1996064986, 2554220882,
   2821834349, 2952996808, 3210313671, 3336571891, 3584528711,
   113926993, 338241895, 666307205, 773529912, 1294757372,
   1396182291, 1695183700, 1986661051, 2177026350, 2456956037,
   2730485921, 2820302411, 3259730800, 3345764771, 3516065817,
   3600352804, 4094571909, 275423344, 430227734, 506948616,
   659060556, 883997877, 958139571, 1322822218, 1537002063,
   1747873779, 1955562222, 2024104815, 2227730452, 2361852424,
   2428436474, 2756734187, 3204031479, 3329325298]

/-- The SHA-256 working state: eight 32-bit words. -/
structure Sha256State where
  a : Nat
  b : Nat
  c : Nat
  d : Nat
  e : Nat
  f : Nat
  g : Nat
  h : Nat

/-- The SHA-256 initial hash value. -/
def sha256Init : Sha256State :=
  ⟨1779033703, 3144134277, 1013904242, 2773480762,
   1359893119, 2600822924, 528734635, 1541459225⟩

/-- SHA-256 Sigma-0. -/
def bigSigma0 (x : Nat) : Nat :=
  Nat.xor (Nat.xor (rotr32 x 2) (rotr32 x 13)) (rotr32 x 22)

/-- SHA-256 Sigma-1. -/
def bigSigma1 (x : Nat) : Nat :=
  Nat.xor (Nat.xor (rotr32 x 6) (rotr32 x 11)) (rotr32 x 25)

/-- SHA-256 sigma-0. -/
def smallSigma0 (x : Nat) : Nat :=
  Nat.xor (Nat.xor (rotr32 x 7) (rotr32 x 18)) (shr32 x 3)

/-- SHA-256 sigma-1. -/
def smallSigma1 (x : Nat) : Nat :=
  Nat.xor (Nat.xor (rotr32 x 17) (rotr32 x 19)) (shr32 x 10)

/-- SHA-256 choice function. -/
def chFn (x y z : Nat) : Nat :=
  Nat.xor (Nat.land x y) (Nat.land (not32 x) z)

/-- SHA-256 majority function. -/
def majFn (x y z : Nat) : Nat :=
  Nat.xor (Nat.xor (Nat.land x y) (Nat.land x z)) (Nat.land y z)

/-- Big-endian bytes of a 32-bit word. -/
def be32 (x : Nat) : List Nat :=
  [x / 2 ^ 24 % 256, x / 2 ^ 16 % 256, x / 2 ^ 8 % 256, x % 256]

/-- Big-endian bytes of a 64-bit value. -/
def be64 (x : Nat) : List Nat :=
  [x / 2 ^ 56 % 256, x / 2 ^ 48 % 256, x / 2 ^ 40 % 256, x / 2 ^ 32 % 256,
   x / 2 ^ 24 % 256, x / 2 ^ 16 % 256, x / 2 ^ 8 % 256, x % 256]

/-- SHA-256 message padding: a `0x80` byte, zero fill to 56 mod 64, and
the bit length as a big-endian 64-bit value. -/
def sha256Pad (msg : List Nat) : List Nat :=
  msg ++ 128 :: List.replicate ((64 - (msg.length + 9) % 64) % 64) 0 ++
    be64 (msg.length * 8)

/-- Big-endian 32-bit words of a byte list. -/
def bytesToWords : List Nat → List Nat
  | b1 :: b2 :: b3 :: b4 :: rest =>
    (b1 * 2 ^ 24 + b2 * 2 ^ 16 + b3 * 2 ^ 8 + b4) :: bytesToWords rest
  | _ => []

/-- One message-schedule extension step appending
`sigma1(w[t-2]) + w[t-7] + sigma0(w[t-15]) + w[t-16]`. -/
def scheduleStep (w : List Nat) : List Nat :=
  w ++ [w32 (smallSigma1 (w.getD (w.length - 2) 0) + w.getD (w.length - 7) 0 +
        smallSigma0 (w.getD (w.length - 15) 0) + w.getD (w.length - 16) 0)]

/-- Iterated message-schedule extension (48 steps take the 16 chunk words
to the 64 schedule words). -/
def extendSchedule (w : List Nat) : Nat → List Nat
  | 0 => w
  | k + 1 => extendSchedule (scheduleStep w) k

/-- One SHA-256 compression round. -/
def sha256Round (st : Sha256State) (k wt : Nat) : Sha256State :=
  let t1 := w32 (st.h + bigSigma1 st.e + chFn st.e st.f st.g + k + wt)
  let t2 := w32 (bigSigma0 st.a + majFn st.a st.b st.c)
  ⟨w32 (t1 + t2), st.a, st.b, st.c, w32 (st.d + t1), st.e, st.f, st.g⟩

/-- Compression of one 64-byte chunk. -/
def sha256Compress (st : Sha256State) (chunk : List Nat) : Sha256State :=
  let w := extendSchedule (bytesToWords chunk) 48
  let fin := (List.zip sha256K w).foldl (fun s kw => sha256Round s kw.1 kw.2) st
  ⟨w32 (st.a + fin.a), w32 (st.b + fin.b), w32 (st.c + fin.c),
   w32 (st.d + fin.d), w32 (st.e + fin.e), w32 (st.f + fin.f),
   w32 (st.g + fin.g), w32 (st.h + fin.h)⟩

/-- Split a byte list into 64-byte chunks. -/
def chunks64 : List Nat → List (List Nat)
  | [] => []
  | b :: rest => (b :: rest).take 64 :: chunks64 ((b :: rest).drop 64)
termination_by l => l.length
decreasing_by
  simp only [List.length_drop, List.length_cons]
  omega

/-- SHA-256 of a byte list: the final state's words, big-endian. -/
def sha256 (msg : List Nat) : List Nat :=
  let fin := (chunks64 (sha256Pad msg)).foldl sha256Compress sha256Init
  be32 fin.a ++ be32 fin.b ++ be32 fin.c ++ be32 fin.d ++
  be32 fin.e ++ be32 fin.f ++ be32 fin.g ++ be32 fin.h

/-- Lowercase hex digit. -/
def hexCharOf (n : Nat) : Char :=
  if n < 10 then Char.ofNat (48 + n) else Char.ofNat (87 + n)

/-- Lowercase hex string of a byte list, two digits per byte, as the
`{:x}` formatting of a `sha2` digest produces it. -/
def hexOfBytes (bs : List Nat) : List Char :=
  bs.flatMap (fun b => [hexCharOf (b / 16), hexCharOf (b % 16)])

/-- `calculate_checksum` (src/src/main.rs lines 751-761) with the file
read abstracted away: the lowercase-hex SHA-256 digest of the artifact
bytes. -/
def calculate_checksum (data : List Nat) : List Char :=
  hexOfBytes (sha256 data)

/-- HMAC-SHA256 (RFC 2104, 64-byte block): a long key is hashed, the key
is zero-padded to the block size, and the tag is
`H((key XOR opad) || H((key XOR ipad) || msg))`. -/
def hmacSha256 (key msg : List Nat) : List Nat :=
  let k0 := if 64 < key.length then sha256 key else key
  let k1 := k0 ++ List.replicate (64 - k0.length) 0
  sha256 (k1.map (fun b => Nat.xor b 92) ++
    sha256 (k1.map (fun b => Nat.xor b 54) ++ msg))

/-- `sign_package` (src/src/main.rs lines 763-772) with the file read
abstracted away: base64 of the HMAC-SHA256 tag computed with the key's
bytes over the bytes of the checksum string of the artifact. -/
def sign_package (data key : List Nat) : List Char :=
  b64encode (hmacSha256 key ((calculate_checksum data).map Char.toNat))

/-! ## Helper lemmas -/

theorem applyLines_cons (l : List Char) (rest : List (List Char))
    (out : List Nat) :
    applyLines (l :: rest) out =
      match applyLine out l with
      | .error e => Except.error e
      | .ok out2 => applyLines rest out2 := rfl

theorem applyLine_of_not_three (out : List Nat) (l : List Char)
    (h : (splitn 3 l).length ≠ 3) : applyLine out l = .ok out := by
  unfold applyLine
  split
  · rename_i p0 p1 p2 heq
    exact absurd (by rw [heq]; rfl) h
  · rfl

theorem applyLine_error_of_bad_fields (out : List Nat) (l p0 p1 p2 : List Char)
    (hsplit : splitn 3 l = [p0, p1, p2])
    (hbad : parseUsize p0 = none ∨ parseUsize p1 = none ∨ b64decode p2 = none) :
    ∃ e, applyLine out l = .error e := by
  unfold applyLine
  split
  · rename_i q0 q1 q2 heq
    rw [hsplit] at heq
    obtain ⟨rfl, rfl, rfl⟩ : p0 = q0 ∧ p1 = q1 ∧ p2 = q2 := by
      simpa using heq
    rcases hbad with h0 | h1 | h2
    · rw [h0]; exact ⟨_, rfl⟩
    · cases hp0 : parseUsize p0 with
      | none => exact ⟨_, rfl⟩
      | some off => rw [h1]; exact ⟨_, rfl⟩
    · cases hp0 : parseUsize p0 with
      | none => exact ⟨_, rfl⟩
      | some off =>
        cases hp1 : parseUsize p1 with
        | none => exact ⟨_, rfl⟩
        | some len => rw [h2]; exact ⟨_, rfl⟩
  · rename_i hne
    exact absurd hsplit (hne p0 p1 p2)

theorem writeData_length (data : List Nat) :
    ∀ (out : List Nat) (off : Nat), (writeData out off data).length = out.length := by
  induction data with
  | nil => intro out off; rfl
  | cons b rest ih =>
    intro out off
    show (writeData (out.set off b) (off + 1) rest).length = out.length
    rw [ih, List.length_set]

theorem applyEntry_length_ge (out : List Nat) (off len : Nat) (data : List Nat) :
    out.length ≤ (applyEntry out off len data).length := by
  unfold applyEntry
  rw [writeData_length]
  split
  · simp
  · exact le_refl _

theorem applyLine_length_ge (out out2 : List Nat) (l : List Char)
    (h : applyLine out l = .ok out2) : out.length ≤ out2.length := by
  unfold applyLine at h
  split at h
  · rename_i p0 p1 p2 heq
    cases hp0 : parseUsize p0 with
    | none => rw [hp0] at h; cases h
    | some off =>
      rw [hp0] at h
      cases hp1 : parseUsize p1 with
      | none => rw [hp1] at h; cases h
      | some len =>
        rw [hp1] at h
        cases hp2 : b64decode p2 with
        | none => rw [hp2] at h; cases h
        | some data =>
          rw [hp2] at h
          cases h
          exact applyEntry_length_ge out off len data
  · cases h; exact le_refl _

/-! ## Claim C4: platform and arch normalization -/

/-- Claim C4: platform normalization maps the kernel string `darwin` to
`macos` and `linux` to `linux`, any kernel string containing `mingw`,
`cygwin` or `msys` to `windows`, and anything else to `unknown`; arch
normalization maps `x86_64` and `amd64` to `x86_64`, `arm64` and
`aarch64` to `aarch64`, `i386` and `i686` to `x86`, `arm` and `armv7l`
to `arm`, and anything else to `unknown`. -/
theorem normalize_platform_arch_correct :
    normalizePlatform "darwin" = "macos" ∧
    normalizePlatform "linux" = "linux" ∧
    (∀ k : String,
      strContains k "mingw" = true ∨ strContains k "cygwin" = true ∨
        strContains k "msys" = true →
      normalizePlatform k = "windows") ∧
    (∀ k : String, k ≠ "darwin" → k ≠ "linux" →
      strContains k "mingw" = false → strContains k "cygwin" = false →
      strContains k "msys" = false → normalizePlatform k = "unknown") ∧
    normalizeArch "x86_64" = "x86_64" ∧ normalizeArch "amd64" = "x86_64" ∧
    normalizeArch "arm64" = "aarch64" ∧ normalizeArch "aarch64" = "aarch64" ∧
    normalizeArch "i386" = "x86" ∧ normalizeArch "i686" = "x86" ∧
    normalizeArch "arm" = "arm" ∧ normalizeArch "armv7l" = "arm" ∧
    (∀ a : String, a ≠ "x86_64" → a ≠ "amd64" → a ≠ "arm64" → a ≠ "aarch64" →
      a ≠ "i386" → a ≠ "i686" → a ≠ "arm" → a ≠ "armv7l" →
      normalizeArch a = "unknown") := by
  refine ⟨by decide, by rfl, ?_, ?_, by rfl, by decide, by rfl,
    by decide, by rfl, by decide, by rfl, by decide, ?_⟩
  · intro k h
    have hd : k ≠ "darwin" := by
      rintro rfl; rcases h with h | h | h <;> revert h <;> decide
    have hl : k ≠ "linux" := by
      rintro rfl; rcases h with h | h | h <;> revert h <;> decide
    unfold normalizePlatform
    rw [if_neg hd, if_neg hl, if_pos]
    rcases h with h | h | h <;> simp [h]
  · intro k h1 h2 h3 h4 h5
    unfold normalizePlatform
    rw [if_neg h1, if_neg h2, if_neg]
    simp [h3, h4, h5]
  · intro a h1 h2 h3 h4 h5 h6 h7 h8
    unfold normalizeArch
    rw [if_neg (by tauto), if_neg (by tauto), if_neg (by tauto),
      if_neg (by tauto)]

/-- Witness for C4: the implications of
`normalize_platform_arch_correct` at concrete inputs. -/
theorem normalize_platform_arch_correct_witness :
    normalizePlatform "mingw32_nt" = "windows" ∧
    normalizePlatform "sunos" = "unknown" ∧
    normalizeArch "riscv64" = "unknown" := by
  obtain ⟨-, -, hw, hu, -, -, -, -, -, -, -, -, ha⟩ :=
    normalize_platform_arch_correct
  exact ⟨hw "mingw32_nt" (Or.inl (by decide)),
    hu "sunos" (by decide) (by decide) (by decide) (by decide) (by decide),
    ha "riscv64" (by decide) (by decide) (by decide) (by decide) (by decide)
      (by decide) (by decide) (by decide)⟩

/-! ## Claim C6: auxiliary subcommands versus the launch path -/

/-- Claim C6 is contradicted by the code: in the bootstrap script the
auxiliary-subcommand dispatch (lines 191-210) comes after the launch
block (lines 118-131), and every branch of the launch block execs a
binary or exits, so the whole script always behaves as the launch block
alone and the subcommands are unreachable.  Concretely, invoking the
artifact with first argument `--check-updates` on a resolvable host
execs the bundled binary with that argument instead of running the
version check the dispatch would have selected (and on an unresolvable
host it prints the no-compatible-binary diagnostic and exits 1). -/
theorem bootstrap_aux_subcommands_unreachable :
    (∀ (targets : List TargetInfo) (p a : String) (args : List String),
      bootstrapScriptModel targets p a args = bootstrapLaunch targets p a args) ∧
    bootstrapDispatchAfter ["--check-updates"] = some .runCheckUpdates ∧
    bootstrapScriptModel [⟨"linux", "x86_64", "bin/app", [], none, []⟩]
        "linux" "x86_64" ["--check-updates"] =
      .execDirect "$TEMP_DIR/rustpack/bin/app" ["--check-updates"] ∧
    bootstrapScriptModel [] "linux" "x86_64" ["--check-updates"] =
      .exitWithError "Error: No compatible binary found for linux-x86_64" 1 :=
  ⟨fun _ _ _ _ => rfl, by decide, by decide, by decide⟩

/-! ## Claim C7: malformed patch lines are skipped -/

/-- Claim C7: when applying a patch, every line that does not split into
exactly three colon-separated fields is skipped and the remaining lines
are still applied; a wrong field count never makes `apply_binary_patch`
fail (the result, error or not, is exactly that of the patch restricted
to its three-field lines). -/
theorem apply_skips_malformed_lines :
    ∀ (lines : List (List Char)) (original : List Nat),
      apply_binary_patch original lines =
        apply_binary_patch original
          (lines.filter (fun l => (splitn 3 l).length == 3)) := by
  unfold apply_binary_patch
  intro lines
  induction lines with
  | nil => intro original; rfl
  | cons l rest ih =>
    intro original
    by_cases h3 : (splitn 3 l).length = 3
    · rw [List.filter_cons_of_pos (by simpa using h3)]
      rw [applyLines_cons, applyLines_cons]
      cases happ : applyLine original l with
      | error e => rfl
      | ok out2 => exact ih out2
    · rw [List.filter_cons_of_neg (by simpa using h3)]
      rw [applyLines_cons, applyLine_of_not_three original l h3]
      exact ih original

/-! ## Claim C9: apply never shrinks the original -/

/-- Claim C9: for every original byte sequence and every patch, a
successful `apply_binary_patch` returns an output at least as long as the
original: the buffer starts as a copy of the original and is only grown
or overwritten. -/
theorem apply_output_length_ge :
    ∀ (lines : List (List Char)) (original out : List Nat),
      apply_binary_patch original lines = .ok out →
      original.length ≤ out.length := by
  unfold apply_binary_patch
  intro lines
  induction lines with
  | nil =>
    intro original out h
    cases h
    exact le_refl _
  | cons l rest ih =>
    intro original out h
    show original.length ≤ out.length
    unfold applyLines at h
    cases happ : applyLine original l with
    | error e => rw [happ] at h; cases h
    | ok mid =>
      rw [happ] at h
      exact le_trans (applyLine_length_ge original mid l happ) (ih mid out h)

/-- Witness for C9: a patch entry past the end grows the buffer from one
byte to five. -/
theorem apply_output_length_ge_witness :
    List.length [3] ≤ List.length [3, 0, 0, 0, 0] :=
  apply_output_length_ge [['2', ':', '3', ':', 'A', 'A', 'A', 'A']] [3]
    [3, 0, 0, 0, 0] (by rfl)

/-! ## Claim C10: three-field lines with bad fields abort apply -/

/-- Claim C10: a patch line that does split into exactly three
colon-separated fields but whose offset or length field does not parse as
a decimal unsigned integer, or whose data field is not valid base64,
makes the entire `apply_binary_patch` fail with an error rather than
being skipped. -/
theorem apply_fails_on_bad_fields :
    ∀ (original : List Nat) (pre post : List (List Char))
      (l p0 p1 p2 : List Char),
      splitn 3 l = [p0, p1, p2] →
      (parseUsize p0 = none ∨ parseUsize p1 = none ∨ b64decode p2 = none) →
      ∃ e, apply_binary_patch original (pre ++ l :: post) = .error e := by
  unfold apply_binary_patch
  intro original pre
  induction pre generalizing original with
  | nil =>
    intro post l p0 p1 p2 hsplit hbad
    obtain ⟨e, he⟩ := applyLine_error_of_bad_fields original l p0 p1 p2 hsplit hbad
    refine ⟨e, ?_⟩
    rw [List.nil_append, applyLines_cons, he]
  | cons q pre' ih =>
    intro post l p0 p1 p2 hsplit hbad
    rw [List.cons_append, applyLines_cons]
    cases happ : applyLine original q with
    | error e => exact ⟨e, rfl⟩
    | ok mid => exact ih mid post l p0 p1 p2 hsplit hbad

/-- Witness for C10. -/
theorem apply_fails_on_bad_fields_witness :
    ∃ e, apply_binary_patch []
      [['x', ':', '1', ':', 'A', 'A', 'A', 'A']] = .error e :=
  apply_fails_on_bad_fields [] [] [] ['x', ':', '1', ':', 'A', 'A', 'A', 'A']
    ['x'] ['1'] ['A', 'A', 'A', 'A'] (by rfl) (Or.inl (by rfl))

/-! ## Claim C8: signature structure and constant MAC input size -/

theorem sha256_length (msg : List Nat) : (sha256 msg).length = 32 := by
  simp [sha256, be32]

theorem hexOfBytes_length (bs : List Nat) :
    (hexOfBytes bs).length = 2 * bs.length := by
  induction bs with
  | nil => rfl
  | cons b rest ih =>
    simp [hexOfBytes] at ih ⊢
    omega

/-- Claim C8: for every artifact byte sequence and key, the signature
equals `base64(HMAC-SHA256(key, hex(SHA-256(artifact))))`: the MAC is
computed over the bytes of the 64-character hex digest string, whose
length is the same for every artifact, not over the artifact bytes
themselves. -/
theorem sign_is_mac_over_hex_digest :
    ∀ (data key : List Nat),
      sign_package data key =
        b64encode (hmacSha256 key ((hexOfBytes (sha256 data)).map Char.toNat)) ∧
      ((calculate_checksum data).map Char.toNat).length = 64 := by
  intro data key
  constructor
  · rfl
  · rw [List.length_map]
    show (hexOfBytes (sha256 data)).length = 64
    rw [hexOfBytes_length, sha256_length]

/-! ## Claim C5: missing assets abort before any archive is created -/

theorem copy_assets_error_of_missing
    (fsExists : String → Bool) (assets : List String)
    (h : ∃ a ∈ assets, fsExists a = false) :
    ∃ a ∈ assets, fsExists a = false ∧
      copy_assets fsExists assets = .error ("Asset not found: " ++ a) := by
  induction assets with
  | nil => obtain ⟨a, ha, -⟩ := h; cases ha
  | cons hd tl ih =>
    by_cases hhd : fsExists hd
    · have htl : ∃ a ∈ tl, fsExists a = false := by
        obtain ⟨a, ha, hfa⟩ := h
        rcases List.mem_cons.mp ha with rfl | hmem
        · rw [hhd] at hfa; cases hfa
        · exact ⟨a, hmem, hfa⟩
      obtain ⟨a, hmem, hfa, heq⟩ := ih htl
      refine ⟨a, List.mem_cons_of_mem hd hmem, hfa, ?_⟩
      show (if fsExists hd then copy_assets fsExists tl
        else .error ("Asset not found: " ++ hd)) = _
      rw [if_pos hhd, heq]
    · refine ⟨hd, List.mem_cons_self hd tl, by simpa using hhd, ?_⟩
      show (if fsExists hd then copy_assets fsExists tl
        else .error ("Asset not found: " ++ hd)) = _
      rw [if_neg hhd]

/-- Claim C5: if any declared asset path does not exist under the project
root, `build_package` fails with the `Asset not found` error naming a
missing asset, and its event trace is empty: in particular no
`archive_created` event has happened, so no package artifact was emitted. -/
theorem asset_missing_aborts_before_archive :
    ∀ (fsExists : String → Bool) (assets : List String) (createZip : Bool),
      (∃ a ∈ assets, fsExists a = false) →
      ∃ a ∈ assets, fsExists a = false ∧
        build_package fsExists assets createZip =
          (.error ("Asset not found: " ++ a), []) := by
  intro fsExists assets createZip h
  obtain ⟨a, hmem, hfa, heq⟩ := copy_assets_error_of_missing fsExists assets h
  refine ⟨a, hmem, hfa, ?_⟩
  unfold build_package
  rw [heq]

/-- Witness for C5: a single declared asset that the file system lacks. -/
theorem asset_missing_aborts_before_archive_witness :
    build_package (fun _ => false) ["data.txt"] true =
      (.error ("Asset not found: " ++ "data.txt"), []) := by
  obtain ⟨a, ha, -, heq⟩ :=
    asset_missing_aborts_before_archive (fun _ => false) ["data.txt"] true
      ⟨"data.txt", by simp⟩
  have haeq : a = "data.txt" := by simpa using ha
  rw [haeq] at heq
  exact heq

/-! ## Claim C2: binary resolution and the launch-or-diagnose outcome -/

theorem targetMatches_iff (p a : String) (t : TargetInfo) :
    targetMatches p a t = true ↔ t.platform = p ∧ t.arch = a := by
  simp [targetMatches]

theorem intercalate_singleton (x : String) :
    String.intercalate "\n" [x] = x := by
  simp [String.intercalate, String.intercalate.go]

theorem filter_matches_of_pairwise_find
    (targets : List TargetInfo) (p a : String) (t : TargetInfo)
    (hnodup : targets.Pairwise
      (fun s u => ¬(s.platform = u.platform ∧ s.arch = u.arch)))
    (hfind : targets.find? (targetMatches p a) = some t) :
    targets.filter (targetMatches p a) = [t] := by
  induction targets with
  | nil => cases hfind
  | cons hd tl ih =>
    by_cases hhd : targetMatches p a hd
    · rw [List.find?_cons_of_pos _ hhd] at hfind
      injection hfind with hft
      subst hft
      rw [List.filter_cons_of_pos hhd]
      have htl : tl.filter (targetMatches p a) = [] := by
        rw [List.filter_eq_nil_iff]
        intro u hu hum
        have h1 := (targetMatches_iff p a hd).mp hhd
        have h2 := (targetMatches_iff p a u).mp hum
        exact (List.pairwise_cons.mp hnodup).1 u hu
          ⟨h1.1.trans h2.1.symm, h1.2.trans h2.2.symm⟩
      rw [htl]
    · rw [List.find?_cons_of_neg _ hhd] at hfind
      rw [List.filter_cons_of_neg hhd]
      exact ih (List.pairwise_cons.mp hnodup).2 hfind

/-- Claim C2 (amended): the bootstrap script's resolution joins the
binary paths of all matching manifest entries; when the manifest
invariant (no duplicate (platform, arch) pairs) holds and the matching
entry's binary path is non-empty, this is exactly the first match in
stored order and the script execs that binary; when no entry matches,
the script prints a diagnostic naming the unresolved (platform, arch)
pair and exits with status 1.  (With duplicate pairs, or an empty
binary path, the first-match behavior of the original claim fails; see
the counterexample.) -/
theorem resolve_first_match_and_miss :
    (∀ (targets : List TargetInfo) (p a : String) (args : List String)
        (t : TargetInfo),
      targets.Pairwise
        (fun s u => ¬(s.platform = u.platform ∧ s.arch = u.arch)) →
      targets.find? (targetMatches p a) = some t →
      t.binary_path ≠ "" →
      resolveBinaryPath targets p a = t.binary_path ∧
      launchedPath (bootstrapLaunch targets p a args) =
        some ("$TEMP_DIR/rustpack/" ++ t.binary_path)) ∧
    (∀ (targets : List TargetInfo) (p a : String) (args : List String),
      targets.find? (targetMatches p a) = none →
      bootstrapLaunch targets p a args =
        .exitWithError
          ("Error: No compatible binary found for " ++ p ++ "-" ++ a) 1) := by
  constructor
  · intro targets p a args t hnodup hfind hpath
    have hres : resolveBinaryPath targets p a = t.binary_path := by
      unfold resolveBinaryPath
      rw [filter_matches_of_pairwise_find targets p a t hnodup hfind]
      exact intercalate_singleton t.binary_path
    refine ⟨hres, ?_⟩
    unfold bootstrapLaunch
    rw [hres, if_pos hpath]
    by_cases hc : strContains (String.intercalate " " args) "--cleanup"
    · rw [if_pos hc]; rfl
    · rw [if_neg hc]; rfl
  · intro targets p a args hfind
    have hres : resolveBinaryPath targets p a = "" := by
      unfold resolveBinaryPath
      have : targets.filter (targetMatches p a) = [] := by
        rw [List.filter_eq_nil_iff]
        intro u hu hum
        exact absurd hum (by simpa using List.find?_eq_none.mp hfind u hu)
      rw [this]
      rfl
    unfold bootstrapLaunch
    rw [hres, if_neg (by simp)]

/-- Witness for C2: a two-target manifest resolved to its first entry,
and a miss producing the diagnostic. -/
theorem resolve_first_match_and_miss_witness :
    resolveBinaryPath
      [⟨"linux", "x86_64", "bin/linux-x86_64/app", [], none, []⟩,
       ⟨"macos", "aarch64", "bin/macos-aarch64/app", [], none, []⟩]
      "linux" "x86_64" = "bin/linux-x86_64/app" ∧
    bootstrapLaunch [] "linux" "riscv64" [] =
      .exitWithError "Error: No compatible binary found for linux-riscv64" 1 :=
  ⟨(resolve_first_match_and_miss.1
      [⟨"linux", "x86_64", "bin/linux-x86_64/app", [], none, []⟩,
       ⟨"macos", "aarch64", "bin/macos-aarch64/app", [], none, []⟩]
      "linux" "x86_64" []
      ⟨"linux", "x86_64", "bin/linux-x86_64/app", [], none, []⟩
      (by decide) (by decide) (by decide)).1,
   resolve_first_match_and_miss.2 [] "linux" "riscv64" [] (by decide)⟩

/-- Counterexample for C2 as stated: with two entries sharing the
(linux, x86_64) pair, the script launches the newline-join of both
paths, not the first entry's path; and a matching entry whose binary
path is empty is treated as a miss rather than resolved. -/
theorem resolve_counterexample :
    (List.find? (targetMatches "linux" "x86_64")
        [⟨"linux", "x86_64", "a", [], none, []⟩,
         ⟨"linux", "x86_64", "b", [], none, []⟩] =
      some ⟨"linux", "x86_64", "a", [], none, []⟩) ∧
    launchedPath (bootstrapLaunch
        [⟨"linux", "x86_64", "a", [], none, []⟩,
         ⟨"linux", "x86_64", "b", [], none, []⟩]
        "linux" "x86_64" []) = some "$TEMP_DIR/rustpack/a\nb" ∧
    "$TEMP_DIR/rustpack/a\nb" ≠ "$TEMP_DIR/rustpack/" ++ "a" ∧
    (List.find? (targetMatches "linux" "x86_64")
        [⟨"linux", "x86_64", "", [], none, []⟩] =
      some ⟨"linux", "x86_64", "", [], none, []⟩) ∧
    bootstrapLaunch [⟨"linux", "x86_64", "", [], none, []⟩]
        "linux" "x86_64" [] =
      .exitWithError "Error: No compatible binary found for linux-x86_64" 1 := by
  refine ⟨by rfl, by decide, by decide, by rfl, by decide⟩

/-! ## Decimal and base64 round-trips, and patch-line shape -/

theorem decDigits_lt10 (n : Nat) : ∀ d ∈ decDigits n, d < 10 := by
  induction n using decDigits.induct with
  | case1 n h =>
    intro d hd
    rw [decDigits, dif_pos h] at hd
    rw [List.mem_singleton.mp hd]
    exact h
  | case2 n h ih =>
    intro d hd
    rw [decDigits, dif_neg h] at hd
    rcases List.mem_append.mp hd with h1 | h2
    · exact ih d h1
    · rw [List.mem_singleton.mp h2]
      omega

theorem decDigits_ne_nil (n : Nat) : decDigits n ≠ [] := by
  rw [decDigits]
  split
  · exact List.cons_ne_nil n []
  · exact List.append_ne_nil_of_right_ne_nil _ (List.cons_ne_nil _ [])

theorem digitVal_digitChar : ∀ d, d < 10 →
    digitVal (Char.ofNat (48 + d)) = some d := by decide

theorem digitChar_ne_plus : ∀ d, d < 10 → Char.ofNat (48 + d) ≠ '+' := by
  decide

theorem digitChar_ne_colon : ∀ d, d < 10 → Char.ofNat (48 + d) ≠ ':' := by
  decide

theorem parseDigits_cons (c : Char) (t : List Char) (acc : Nat) :
    parseDigits (c :: t) acc =
      match digitVal c with
      | some d => parseDigits t (acc * 10 + d)
      | none => none := rfl

theorem parseDigits_append (xs ys : List Char) :
    ∀ acc, parseDigits (xs ++ ys) acc =
      match parseDigits xs acc with
      | none => none
      | some acc2 => parseDigits ys acc2 := by
  induction xs with
  | nil => intro acc; rfl
  | cons c t ih =>
    intro acc
    rw [List.cons_append, parseDigits_cons, parseDigits_cons]
    cases hc : digitVal c with
    | none => rfl
    | some d => exact ih (acc * 10 + d)

theorem parseDigits_decDigits (n : Nat) :
    ∀ acc, parseDigits ((decDigits n).map (fun d => Char.ofNat (48 + d))) acc =
      some (acc * 10 ^ (decDigits n).length + n) := by
  induction n using decDigits.induct with
  | case1 n h =>
    intro acc
    rw [decDigits, dif_pos h]
    show (match digitVal (Char.ofNat (48 + n)) with
      | some d => parseDigits [] (acc * 10 + d)
      | none => none) = _
    rw [digitVal_digitChar n h]
    show some (acc * 10 + n) = _
    norm_num
  | case2 n h ih =>
    intro acc
    rw [decDigits, dif_neg h]
    rw [List.map_append, parseDigits_append]
    rw [ih acc]
    show (match digitVal (Char.ofNat (48 + n % 10)) with
      | some d => parseDigits [] ((acc * 10 ^ (decDigits (n / 10)).length + n / 10) * 10 + d)
      | none => none) = _
    rw [digitVal_digitChar (n % 10) (by omega)]
    show some ((acc * 10 ^ (decDigits (n / 10)).length + n / 10) * 10 + n % 10) = _
    rw [List.length_append, List.length_singleton, pow_succ]
    congr 1
    have hn : n / 10 * 10 + n % 10 = n := Nat.div_add_mod' n 10
    calc (acc * 10 ^ (decDigits (n / 10)).length + n / 10) * 10 + n % 10
        = acc * (10 ^ (decDigits (n / 10)).length * 10) +
          (n / 10 * 10 + n % 10) := by ring
      _ = acc * (10 ^ (decDigits (n / 10)).length * 10) + n := by rw [hn]

theorem parseUsize_cons (c : Char) (rest : List Char) :
    parseUsize (c :: rest) =
      if c = '+' then (if rest = [] then none else parseDigits rest 0)
      else parseDigits (c :: rest) 0 := rfl

theorem parseUsize_decRepr (n : Nat) : parseUsize (decRepr n) = some n := by
  unfold decRepr
  cases hd : decDigits n with
  | nil => exact absurd hd (decDigits_ne_nil n)
  | cons d ds =>
    have hdlt : d < 10 := decDigits_lt10 n d (hd ▸ List.mem_cons_self d ds)
    show parseUsize (Char.ofNat (48 + d) :: ds.map (fun d => Char.ofNat (48 + d))) = _
    rw [parseUsize_cons, if_neg (digitChar_ne_plus d hdlt)]
    have := parseDigits_decDigits n 0
    rw [hd] at this
    show parseDigits ((d :: ds).map (fun d => Char.ofNat (48 + d))) 0 = _
    rw [this]
    norm_num

theorem decRepr_no_colon (n : Nat) : ':' ∉ decRepr n := by
  unfold decRepr
  intro hmem
  obtain ⟨d, hd, heq⟩ := List.mem_map.mp hmem
  exact digitChar_ne_colon d (decDigits_lt10 n d hd) heq

theorem splitFirstColon_append (x y : List Char) (hx : ':' ∉ x) :
    splitFirstColon (x ++ ':' :: y) = some (x, y) := by
  induction x with
  | nil =>
    show (if ':' = ':' then some (([] : List Char), y) else _) = _
    rw [if_pos rfl]
  | cons c t ih =>
    have hc : c ≠ ':' := fun h => hx (h ▸ List.mem_cons_self c t)
    have ht : ':' ∉ t := fun h => hx (List.mem_cons_of_mem c h)
    show (if c = ':' then some (([] : List Char), t ++ ':' :: y)
      else match splitFirstColon (t ++ ':' :: y) with
        | none => none
        | some (pre, post) => some (c :: pre, post)) = _
    rw [if_neg hc, ih ht]

theorem splitn3_encoded (x y z : List Char) (hx : ':' ∉ x) (hy : ':' ∉ y) :
    splitn 3 (x ++ ':' :: (y ++ ':' :: z)) = [x, y, z] := by
  show (match splitFirstColon (x ++ ':' :: (y ++ ':' :: z)) with
    | none => [x ++ ':' :: (y ++ ':' :: z)]
    | some (pre, post) => pre :: splitn 2 post) = _
  rw [splitFirstColon_append _ _ hx]
  show x :: (match splitFirstColon (y ++ ':' :: z) with
    | none => [y ++ ':' :: z]
    | some (pre, post) => pre :: splitn 1 post) = _
  rw [splitFirstColon_append _ _ hy]
  rfl

theorem b64ValOf_b64CharOf : ∀ v, v < 64 → b64ValOf (b64CharOf v) = some v := by
  decide

theorem b64CharOf_ne_eq : ∀ v, v < 64 → b64CharOf v ≠ '=' := by decide

theorem b64decode_cons (c1 c2 c3 c4 : Char) (rest : List Char) :
    b64decode (c1 :: c2 :: c3 :: c4 :: rest) =
      (if rest = [] ∧ c3 = '=' ∧ c4 = '=' then
        match b64ValOf c1, b64ValOf c2 with
        | some v1, some v2 =>
          if v2 % 16 = 0 then some [v1 * 4 + v2 / 16] else none
        | _, _ => none
      else if rest = [] ∧ c4 = '=' then
        match b64ValOf c1, b64ValOf c2, b64ValOf c3 with
        | some v1, some v2, some v3 =>
          if v3 % 4 = 0 then some [v1 * 4 + v2 / 16, v2 % 16 * 16 + v3 / 4]
          else none
        | _, _, _ => none
      else
        match b64ValOf c1, b64ValOf c2, b64ValOf c3, b64ValOf c4,
            b64decode rest with
        | some v1, some v2, some v3, some v4, some tail =>
          some ((v1 * 4 + v2 / 16) :: (v2 % 16 * 16 + v3 / 4) ::
                (v3 % 4 * 64 + v4) :: tail)
        | _, _, _, _, _ => none) := rfl

theorem b64_roundtrip :
    ∀ bs : List Nat, (∀ b ∈ bs, b < 256) →
      b64decode (b64encode bs) = some bs := by
  intro bs
  induction bs using b64encode.induct with
  | case1 => intro _; rfl
  | case2 b1 =>
    intro h
    have hb1 : b1 < 256 := h b1 (by simp)
    show b64decode [b64CharOf (b1 / 4), b64CharOf (b1 % 4 * 16), '=', '='] = _
    rw [b64decode_cons, if_pos ⟨rfl, rfl, rfl⟩]
    rw [b64ValOf_b64CharOf (b1 / 4) (by omega),
      b64ValOf_b64CharOf (b1 % 4 * 16) (by omega)]
    show (if b1 % 4 * 16 % 16 = 0 then some [b1 / 4 * 4 + b1 % 4 * 16 / 16]
      else none) = _
    rw [if_pos (by omega)]
    congr 1
    simp only [List.cons.injEq, and_true]
    omega
  | case3 b1 b2 =>
    intro h
    have hb1 : b1 < 256 := h b1 (by simp)
    have hb2 : b2 < 256 := h b2 (by simp)
    show b64decode [b64CharOf (b1 / 4), b64CharOf (b1 % 4 * 16 + b2 / 16),
      b64CharOf (b2 % 16 * 4), '='] = _
    rw [b64decode_cons,
      if_neg (fun hcon => b64CharOf_ne_eq (b2 % 16 * 4) (by omega) hcon.2.1),
      if_pos ⟨rfl, rfl⟩]
    rw [b64ValOf_b64CharOf (b1 / 4) (by omega),
      b64ValOf_b64CharOf (b1 % 4 * 16 + b2 / 16) (by omega),
      b64ValOf_b64CharOf (b2 % 16 * 4) (by omega)]
    show (if b2 % 16 * 4 % 4 = 0 then
      some [b1 / 4 * 4 + (b1 % 4 * 16 + b2 / 16) / 16,
        (b1 % 4 * 16 + b2 / 16) % 16 * 16 + b2 % 16 * 4 / 4]
      else none) = _
    rw [if_pos (by omega)]
    congr 1
    simp only [List.cons.injEq, and_true]
    constructor
    · omega
    · omega
  | case4 b1 b2 b3 rest ih =>
    intro h
    have hb1 : b1 < 256 := h b1 (by simp)
    have hb2 : b2 < 256 := h b2 (by simp)
    have hb3 : b3 < 256 := h b3 (by simp)
    have hrest : ∀ b ∈ rest, b < 256 := fun b hb => h b (by simp [hb])
    show b64decode (b64CharOf (b1 / 4) :: b64CharOf (b1 % 4 * 16 + b2 / 16) ::
      b64CharOf (b2 % 16 * 4 + b3 / 64) :: b64CharOf (b3 % 64) ::
      b64encode rest) = _
    rw [b64decode_cons,
      if_neg (fun hcon => b64CharOf_ne_eq (b3 % 64) (by omega) hcon.2.2),
      if_neg (fun hcon => b64CharOf_ne_eq (b3 % 64) (by omega) hcon.2)]
    rw [b64ValOf_b64CharOf (b1 / 4) (by omega),
      b64ValOf_b64CharOf (b1 % 4 * 16 + b2 / 16) (by omega),
      b64ValOf_b64CharOf (b2 % 16 * 4 + b3 / 64) (by omega),
      b64ValOf_b64CharOf (b3 % 64) (by omega),
      ih hrest]
    show some ((b1 / 4 * 4 + (b1 % 4 * 16 + b2 / 16) / 16) ::
      ((b1 % 4 * 16 + b2 / 16) % 16 * 16 + (b2 % 16 * 4 + b3 / 64) / 4) ::
      ((b2 % 16 * 4 + b3 / 64) % 4 * 64 + b3 % 64) :: rest) = _
    congr 1
    simp only [List.cons.injEq, and_true]
    refine ⟨?_, ?_, ?_⟩ <;> omega

/-! ## Properties of the diff scans -/

theorem scanMatchFuel_zero (old new : List Nat) (i : Nat) :
    scanMatchFuel old new 0 i = i := rfl

theorem scanMatchFuel_succ (old new : List Nat) (fuel i : Nat) :
    scanMatchFuel old new (fuel + 1) i =
      if i < new.length ∧ i < old.length ∧ new.getD i 0 = old.getD i 0 then
        scanMatchFuel old new fuel (i + 1)
      else i := rfl

theorem scanMatchFuel_ge (old new : List Nat) :
    ∀ fuel i, i ≤ scanMatchFuel old new fuel i := by
  intro fuel
  induction fuel with
  | zero => intro i; exact le_refl i
  | succ fuel ih =>
    intro i
    rw [scanMatchFuel_succ]
    split
    · exact le_trans (by omega) (ih (i + 1))
    · exact le_refl i

theorem scanMatchFuel_le (old new : List Nat) :
    ∀ fuel i, scanMatchFuel old new fuel i ≤ i + fuel := by
  intro fuel
  induction fuel with
  | zero => intro i; exact le_of_eq (scanMatchFuel_zero old new i)
  | succ fuel ih =>
    intro i
    rw [scanMatchFuel_succ]
    split
    · exact le_trans (ih (i + 1)) (by omega)
    · omega

theorem scanMatchFuel_matched (old new : List Nat) :
    ∀ fuel i j, i ≤ j → j < scanMatchFuel old new fuel i →
      j < new.length ∧ j < old.length ∧ new.getD j 0 = old.getD j 0 := by
  intro fuel
  induction fuel with
  | zero =>
    intro i j hij hj
    rw [scanMatchFuel_zero] at hj
    omega
  | succ fuel ih =>
    intro i j hij hj
    rw [scanMatchFuel_succ] at hj
    by_cases hc : i < new.length ∧ i < old.length ∧ new.getD i 0 = old.getD i 0
    · rw [if_pos hc] at hj
      rcases Nat.eq_or_lt_of_le hij with rfl | hlt
      · exact hc
      · exact ih (i + 1) j hlt hj
    · rw [if_neg hc] at hj
      omega

theorem scanMatchFuel_stop (old new : List Nat) :
    ∀ fuel i, new.length - i ≤ fuel →
      ¬(scanMatchFuel old new fuel i < new.length ∧
        scanMatchFuel old new fuel i < old.length ∧
        new.getD (scanMatchFuel old new fuel i) 0 =
          old.getD (scanMatchFuel old new fuel i) 0) := by
  intro fuel
  induction fuel with
  | zero =>
    intro i hfuel
    rw [scanMatchFuel_zero]
    rintro ⟨h1, -, -⟩
    omega
  | succ fuel ih =>
    intro i hfuel
    by_cases hc : i < new.length ∧ i < old.length ∧ new.getD i 0 = old.getD i 0
    · rw [scanMatchFuel_succ, if_pos hc]
      exact ih (i + 1) (by omega)
    · rw [scanMatchFuel_succ, if_neg hc]
      exact hc

theorem scanMatch_ge (old new : List Nat) (i : Nat) : i ≤ scanMatch old new i :=
  scanMatchFuel_ge old new _ i

theorem scanMatch_le (old new : List Nat) (i : Nat) (h : i ≤ new.length) :
    scanMatch old new i ≤ new.length :=
  le_trans (scanMatchFuel_le old new _ i) (by omega)

theorem scanMatch_matched (old new : List Nat) (i j : Nat) (hij : i ≤ j)
    (hj : j < scanMatch old new i) :
    j < new.length ∧ j < old.length ∧ new.getD j 0 = old.getD j 0 :=
  scanMatchFuel_matched old new _ i j hij hj

theorem scanMatch_stop (old new : List Nat) (i : Nat) :
    ¬(scanMatch old new i < new.length ∧
      scanMatch old new i < old.length ∧
      new.getD (scanMatch old new i) 0 = old.getD (scanMatch old new i) 0) :=
  scanMatchFuel_stop old new _ i (le_refl _)

theorem scanEndFuel_zero (old new : List Nat) (e : Nat) :
    scanEndFuel old new 0 e = e := rfl

theorem scanEndFuel_succ (old new : List Nat) (fuel e : Nat) :
    scanEndFuel old new (fuel + 1) e =
      if e < new.length then
        (if runCond old new e then e else scanEndFuel old new fuel (e + 1))
      else e := rfl

theorem scanEndFuel_ge (old new : List Nat) :
    ∀ fuel e, e ≤ scanEndFuel old new fuel e := by
  intro fuel
  induction fuel with
  | zero => intro e; exact le_refl e
  | succ fuel ih =>
    intro e
    rw [scanEndFuel_succ]
    split
    · split
      · exact le_refl e
      · exact le_trans (by omega) (ih (e + 1))
    · exact le_refl e

theorem scanEndFuel_le (old new : List Nat) :
    ∀ fuel e, scanEndFuel old new fuel e ≤ e + fuel := by
  intro fuel
  induction fuel with
  | zero => intro e; exact le_of_eq (scanEndFuel_zero old new e)
  | succ fuel ih =>
    intro e
    rw [scanEndFuel_succ]
    split
    · split
      · omega
      · exact le_trans (ih (e + 1)) (by omega)
    · omega

theorem scanEndFuel_no_run (old new : List Nat) :
    ∀ fuel e j, e ≤ j → j < scanEndFuel old new fuel e →
      j < new.length ∧ ¬ runCond old new j := by
  intro fuel
  induction fuel with
  | zero =>
    intro e j hej hj
    rw [scanEndFuel_zero] at hj
    omega
  | succ fuel ih =>
    intro e j hej hj
    rw [scanEndFuel_succ] at hj
    by_cases he : e < new.length
    · rw [if_pos he] at hj
      by_cases hr : runCond old new e
      · rw [if_pos hr] at hj
        omega
      · rw [if_neg hr] at hj
        rcases Nat.eq_or_lt_of_le hej with rfl | hlt
        · exact ⟨he, hr⟩
        · exact ih (e + 1) j hlt hj
    · rw [if_neg he] at hj
      omega

theorem scanEndFuel_stop (old new : List Nat) :
    ∀ fuel e, new.length - e ≤ fuel →
      new.length ≤ scanEndFuel old new fuel e ∨
        runCond old new (scanEndFuel old new fuel e) := by
  intro fuel
  induction fuel with
  | zero =>
    intro e hfuel
    rw [scanEndFuel_zero]
    left
    omega
  | succ fuel ih =>
    intro e hfuel
    rw [scanEndFuel_succ]
    by_cases he : e < new.length
    · rw [if_pos he]
      by_cases hr : runCond old new e
      · rw [if_pos hr]
        exact Or.inr hr
      · rw [if_neg hr]
        exact ih (e + 1) (by omega)
    · rw [if_neg he]
      left
      omega

theorem scanEnd_ge (old new : List Nat) (e : Nat) : e ≤ scanEnd old new e :=
  scanEndFuel_ge old new _ e

theorem scanEnd_le (old new : List Nat) (e : Nat) (h : e ≤ new.length) :
    scanEnd old new e ≤ new.length :=
  le_trans (scanEndFuel_le old new _ e) (by omega)

theorem scanEnd_no_run (old new : List Nat) (e j : Nat) (hej : e ≤ j)
    (hj : j < scanEnd old new e) : j < new.length ∧ ¬ runCond old new j :=
  scanEndFuel_no_run old new _ e j hej hj

theorem scanEnd_stop (old new : List Nat) (e : Nat) :
    new.length ≤ scanEnd old new e ∨ runCond old new (scanEnd old new e) :=
  scanEndFuel_stop old new _ e (le_refl _)

/-! ## Pointwise behavior of patch application -/

theorem getD_replicate_zero (n i : Nat) : (List.replicate n 0).getD i 0 = 0 := by
  rcases Nat.lt_or_ge i n with h | h
  · rw [List.getD_eq_getElem _ _ (by rw [List.length_replicate]; exact h)]
    simp
  · exact List.getD_eq_default _ _ (by rw [List.length_replicate]; exact h)

theorem writeData_getD (data : List Nat) :
    ∀ (out : List Nat) (off i : Nat), off + data.length ≤ out.length →
      (writeData out off data).getD i 0 =
        if off ≤ i ∧ i < off + data.length then data.getD (i - off) 0
        else out.getD i 0 := by
  induction data with
  | nil =>
    intro out off i h
    rw [if_neg (by simp only [List.length_nil]; omega)]
    rfl
  | cons b rest ih =>
    intro out off i h
    rw [List.length_cons] at h
    show (writeData (out.set off b) (off + 1) rest).getD i 0 = _
    rw [ih (out.set off b) (off + 1) i (by rw [List.length_set]; omega)]
    by_cases h1 : off + 1 ≤ i ∧ i < off + 1 + rest.length
    · rw [if_pos h1, if_pos (by simp only [List.length_cons]; omega)]
      have hio : i - off = (i - (off + 1)) + 1 := by omega
      rw [hio]
      rfl
    · rw [if_neg h1]
      by_cases h2 : i = off
      · subst h2
        rw [if_pos (by simp only [List.length_cons]; omega)]
        have hlt : i < out.length := by omega
        rw [List.getD_eq_getElem _ _ (by rw [List.length_set]; exact hlt)]
        simp [List.getElem_set_self]
      · rw [if_neg (by simp only [List.length_cons]; omega)]
        simp [List.getD_eq_getElem?_getD,
          List.getElem?_set_ne (show off ≠ i from fun hh => h2 hh.symm)]

theorem applyEntry_length (out : List Nat) (off len : Nat) (data : List Nat) :
    (applyEntry out off len data).length = max out.length (off + len) := by
  unfold applyEntry
  rw [writeData_length]
  split
  · rename_i hgt
    rw [List.length_append, List.length_replicate]
    omega
  · rename_i hle
    omega

theorem applyEntry_getD (out : List Nat) (off len : Nat) (data : List Nat)
    (hdl : data.length = len) (i : Nat) :
    (applyEntry out off len data).getD i 0 =
      if off ≤ i ∧ i < off + len then data.getD (i - off) 0
      else out.getD i 0 := by
  unfold applyEntry
  by_cases hgrow : off + len > out.length
  · rw [if_pos hgrow]
    rw [writeData_getD data _ off i
      (by rw [List.length_append, List.length_replicate]; omega), hdl]
    by_cases hin : off ≤ i ∧ i < off + len
    · rw [if_pos hin, if_pos hin]
    · rw [if_neg hin, if_neg hin]
      rcases Nat.lt_or_ge i out.length with hi | hi
      · exact List.getD_append _ _ _ _ hi
      · rw [List.getD_append_right _ _ _ _ hi, List.getD_eq_default _ _ hi]
        exact getD_replicate_zero _ _
  · rw [if_neg hgrow]
    rw [writeData_getD data out off i (by omega), hdl]

theorem list_eq_of_getD (xs ys : List Nat) (hl : xs.length = ys.length)
    (h : ∀ i, i < ys.length → xs.getD i 0 = ys.getD i 0) : xs = ys :=
  List.ext_getElem hl (fun i h1 h2 => by
    have := h i h2
    rwa [List.getD_eq_getElem _ _ h1, List.getD_eq_getElem _ _ h2] at this)

theorem length_drop_take (xs : List Nat) (s k : Nat) (h : s + k ≤ xs.length) :
    ((xs.drop s).take k).length = k := by
  rw [List.length_take, List.length_drop]
  omega

theorem getD_drop_take (xs : List Nat) (s k j : Nat) (hj : j < k)
    (hsj : s + j < xs.length) :
    ((xs.drop s).take k).getD j 0 = xs.getD (s + j) 0 := by
  have hjlen : j < ((xs.drop s).take k).length := by
    rw [List.length_take, List.length_drop]
    omega
  rw [List.getD_eq_getElem _ _ hjlen, List.getD_eq_getElem _ _ hsj]
  rw [List.getElem_take, List.getElem_drop]

/-! ## Claim C1: the diff/apply round trip -/

theorem applyEntries_cons (e : Nat × Nat × List Nat)
    (es : List (Nat × Nat × List Nat)) (out : List Nat) :
    applyEntries (e :: es) out =
      applyEntries es (applyEntry out e.1 e.2.1 e.2.2) := rfl

theorem diffLoopFuel_zero (old new : List Nat) (offset : Nat) :
    diffLoopFuel old new 0 offset = [] := rfl

theorem diffLoopFuel_succ (old new : List Nat) (fuel offset : Nat) :
    diffLoopFuel old new (fuel + 1) offset =
      if offset < new.length then
        (if scanMatch old new offset < new.length then
          (scanMatch old new offset,
            scanEnd old new (scanMatch old new offset + 1) -
              scanMatch old new offset,
            (new.drop (scanMatch old new offset)).take
              (scanEnd old new (scanMatch old new offset + 1) -
                scanMatch old new offset)) ::
            diffLoopFuel old new fuel
              (scanEnd old new (scanMatch old new offset + 1))
        else [])
      else [] := rfl

theorem diffLoopFuel_apply (old new : List Nat) (hlen : old.length ≤ new.length) :
    ∀ (fuel offset : Nat) (out : List Nat),
      new.length - offset < fuel →
      offset ≤ new.length →
      out.length = max old.length offset →
      (∀ i, i < offset → out.getD i 0 = new.getD i 0) →
      (∀ i, offset ≤ i → i < old.length → out.getD i 0 = old.getD i 0) →
      applyEntries (diffLoopFuel old new fuel offset) out = new := by
  intro fuel
  induction fuel with
  | zero =>
    intro offset out hf
    omega
  | succ fuel ih =>
    intro offset out hf hoffle hlen1 hlow hhigh
    rw [diffLoopFuel_succ]
    by_cases hoff : offset < new.length
    · rw [if_pos hoff]
      have hds_ge : offset ≤ scanMatch old new offset := scanMatch_ge old new offset
      have hds_le : scanMatch old new offset ≤ new.length :=
        scanMatch_le old new offset hoffle
      by_cases hds : scanMatch old new offset < new.length
      · rw [if_pos hds]
        have hde_ge : scanMatch old new offset + 1 ≤
            scanEnd old new (scanMatch old new offset + 1) :=
          scanEnd_ge old new _
        have hde_le : scanEnd old new (scanMatch old new offset + 1) ≤ new.length :=
          scanEnd_le old new _ (by omega)
        rw [applyEntries_cons]
        dsimp only
        have hslice : ((new.drop (scanMatch old new offset)).take
            (scanEnd old new (scanMatch old new offset + 1) -
              scanMatch old new offset)).length =
            scanEnd old new (scanMatch old new offset + 1) -
              scanMatch old new offset :=
          length_drop_take new _ _ (by omega)
        apply ih (scanEnd old new (scanMatch old new offset + 1)) _
          (by omega) (by omega)
        · rw [applyEntry_length, hlen1]
          omega
        · intro i hi
          rw [applyEntry_getD _ _ _ _ hslice i]
          by_cases hin : scanMatch old new offset ≤ i ∧
              i < scanMatch old new offset +
                (scanEnd old new (scanMatch old new offset + 1) -
                  scanMatch old new offset)
          · rw [if_pos hin]
            rw [getD_drop_take new _ _ _ (by omega) (by omega)]
            rw [show scanMatch old new offset +
              (i - scanMatch old new offset) = i from by omega]
          · rw [if_neg hin]
            have hilt : i < scanMatch old new offset := by omega
            rcases Nat.lt_or_ge i offset with hio | hio
            · exact hlow i hio
            · obtain ⟨h1, h2, h3⟩ := scanMatch_matched old new offset i hio hilt
              rw [hhigh i hio h2]
              exact h3.symm
        · intro i hdei hiold
          rw [applyEntry_getD _ _ _ _ hslice i, if_neg (by omega)]
          exact hhigh i (by omega) hiold
      · rw [if_neg hds]
        have hmatch := fun j (h1 : offset ≤ j)
            (h2 : j < scanMatch old new offset) =>
          scanMatch_matched old new offset j h1 h2
        have holdlen : old.length = new.length := by
          have hj := hmatch (new.length - 1) (by omega) (by omega)
          omega
        show out = new
        apply list_eq_of_getD _ _ (by omega)
        intro i hi
        rcases Nat.lt_or_ge i offset with hio | hio
        · exact hlow i hio
        · obtain ⟨h1, h2, h3⟩ := hmatch i hio (by omega)
          rw [hhigh i hio h2]
          exact h3.symm
    · rw [if_neg hoff]
      show out = new
      apply list_eq_of_getD _ _ (by omega)
      intro i hi
      exact hlow i (by omega)

theorem diff_apply_entries (old new : List Nat)
    (hlen : old.length ≤ new.length) :
    applyEntries (diffEntries old new) old = new :=
  diffLoopFuel_apply old new hlen (new.length + 1) 0 old (by omega) (by omega)
    (by omega) (fun i hi => absurd hi (by omega)) (fun i _ _ => rfl)

theorem diffLoopFuel_bytes (old new : List Nat) :
    ∀ (fuel offset : Nat) (e : Nat × Nat × List Nat),
      e ∈ diffLoopFuel old new fuel offset → ∀ b ∈ e.2.2, b ∈ new := by
  intro fuel
  induction fuel with
  | zero =>
    intro offset e he
    rw [diffLoopFuel_zero] at he
    exact absurd he (List.not_mem_nil e)
  | succ fuel ih =>
    intro offset e he
    rw [diffLoopFuel_succ] at he
    by_cases hoff : offset < new.length
    · rw [if_pos hoff] at he
      by_cases hds : scanMatch old new offset < new.length
      · rw [if_pos hds] at he
        rcases List.mem_cons.mp he with rfl | hmem
        · intro b hb
          exact List.mem_of_mem_drop (List.mem_of_mem_take hb)
        · exact ih _ e hmem
      · rw [if_neg hds] at he
        exact absurd he (List.not_mem_nil e)
    · rw [if_neg hoff] at he
      exact absurd he (List.not_mem_nil e)

theorem applyLine_encodeEntry (out : List Nat) (e : Nat × Nat × List Nat)
    (hb : ∀ b ∈ e.2.2, b < 256) :
    applyLine out (encodeEntry e) = .ok (applyEntry out e.1 e.2.1 e.2.2) := by
  obtain ⟨off, len, data⟩ := e
  have hsp : splitn 3 (encodeEntry (off, len, data)) =
      [decRepr off, decRepr len, b64encode data] := by
    unfold encodeEntry
    dsimp only
    exact splitn3_encoded _ _ _ (decRepr_no_colon off) (decRepr_no_colon len)
  unfold applyLine
  rw [hsp]
  simp only [parseUsize_decRepr, b64_roundtrip data hb]

theorem applyLines_encoded :
    ∀ (entries : List (Nat × Nat × List Nat)) (out : List Nat),
      (∀ e ∈ entries, ∀ b ∈ e.2.2, b < 256) →
      applyLines (entries.map encodeEntry) out =
        .ok (applyEntries entries out) := by
  intro entries
  induction entries with
  | nil => intro out _; rfl
  | cons e rest ih =>
    intro out h
    rw [List.map_cons, applyLines_cons,
      applyLine_encodeEntry out e (h e (by simp))]
    show applyLines (rest.map encodeEntry) (applyEntry out e.1 e.2.1 e.2.2) = _
    rw [ih _ (fun e' he' => h e' (by simp [he']))]
    rfl

/-- Claim C1 (amended): `apply(diff(A,B), A) = B` holds whenever `B` is at
least as long as `A` - in particular for empty `A` and for `A = B`.  (When
`B` is shorter than `A` the identity fails, because `apply_binary_patch`
starts from a copy of `A` and never truncates it; see the
counterexample.)  The byte bound reflects that the entries carry literal
bytes of `B` through base64. -/
theorem patch_roundtrip_of_length_le :
    ∀ (a b : List Nat), a.length ≤ b.length → (∀ x ∈ b, x < 256) →
      apply_binary_patch a (create_binary_patch a b) = .ok b := by
  intro a b hlen hbytes
  unfold apply_binary_patch create_binary_patch
  rw [applyLines_encoded (diffEntries a b) a
    (fun e he x hx => hbytes x (diffLoopFuel_bytes a b _ 0 e he x hx))]
  rw [diff_apply_entries a b hlen]

/-- Witness for C1 (amended): a concrete round trip through the textual
patch encoding, where the target is longer than the source. -/
theorem patch_roundtrip_of_length_le_witness :
    List.length [1, 2] ≤ List.length [1, 9, 9, 9] ∧
    apply_binary_patch [1, 2] (create_binary_patch [1, 2] [1, 9, 9, 9]) =
      .ok [1, 9, 9, 9] :=
  ⟨by decide, patch_roundtrip_of_length_le [1, 2] [1, 9, 9, 9] (by decide)
    (by decide)⟩

/-- Counterexample to C1 as stated: for `A = [0]` and `B = []` (empty
target), `diff` emits no entries and `apply` returns the untouched copy
of `A`, not `B`. -/
theorem patch_roundtrip_shrink_counterexample :
    apply_binary_patch [0] (create_binary_patch [0] []) = .ok [0] ∧
    [0] ≠ ([] : List Nat) := by
  constructor
  · rfl
  · simp

/-! ## Claim C3: the diff pass matches the spec's description -/

theorem countMatchesFuel_succ (old new : List Nat) (e fuel m : Nat) :
    countMatchesFuel old new e (fuel + 1) m =
      if m < 4 ∧ e + m < new.length ∧ e + m < old.length ∧
          new.getD (e + m) 0 = old.getD (e + m) 0 then
        countMatchesFuel old new e fuel (m + 1)
      else m := rfl

theorem countMatches_ge4_iff (old new : List Nat) (e : Nat) :
    4 ≤ countMatches old new e 1 ↔
      (∀ j, 1 ≤ j → j ≤ 3 → e + j < new.length ∧ e + j < old.length ∧
        new.getD (e + j) 0 = old.getD (e + j) 0) := by
  unfold countMatches
  by_cases h1 : e + 1 < new.length ∧ e + 1 < old.length ∧
      new.getD (e + 1) 0 = old.getD (e + 1) 0
  · rw [countMatchesFuel_succ, if_pos ⟨by omega, h1⟩]
    by_cases h2 : e + 2 < new.length ∧ e + 2 < old.length ∧
        new.getD (e + 2) 0 = old.getD (e + 2) 0
    · rw [countMatchesFuel_succ, if_pos ⟨by omega, h2⟩]
      by_cases h3 : e + 3 < new.length ∧ e + 3 < old.length ∧
          new.getD (e + 3) 0 = old.getD (e + 3) 0
      · rw [countMatchesFuel_succ, if_pos ⟨by omega, h3⟩]
        rw [countMatchesFuel_succ, if_neg (fun hcon => by omega)]
        constructor
        · intro _ j hj1 hj3
          have : j = 1 ∨ j = 2 ∨ j = 3 := by omega
          rcases this with rfl | rfl | rfl
          · exact h1
          · exact h2
          · exact h3
        · intro _
          exact le_refl 4
      · rw [countMatchesFuel_succ, if_neg (fun hcon => h3 hcon.2)]
        constructor
        · intro hcon; omega
        · intro hall; exact absurd (hall 3 (by omega) (by omega)) h3
    · rw [countMatchesFuel_succ, if_neg (fun hcon => h2 hcon.2)]
      constructor
      · intro hcon; omega
      · intro hall; exact absurd (hall 2 (by omega) (by omega)) h2
  · rw [countMatchesFuel_succ, if_neg (fun hcon => h1 hcon.2)]
    constructor
    · intro hcon; omega
    · intro hall; exact absurd (hall 1 (by omega) (by omega)) h1

theorem runCond_iff_specRunOf4At (old new : List Nat) (e : Nat) :
    runCond old new e ↔ specRunOf4At old new e := by
  constructor
  · rintro ⟨hold, heq, hcm⟩
    have hall := (countMatches_ge4_iff old new e).mp hcm
    intro j hj
    have : j = 0 ∨ j = 1 ∨ j = 2 ∨ j = 3 := by omega
    rcases this with rfl | rfl | rfl | rfl
    · have hnew : e < new.length := by
        have := (hall 1 (by omega) (by omega)).1
        omega
      exact ⟨by simpa using hold, by simpa using hnew, by simpa using heq⟩
    · obtain ⟨a, b, c⟩ := hall 1 (by omega) (by omega)
      exact ⟨b, a, c⟩
    · obtain ⟨a, b, c⟩ := hall 2 (by omega) (by omega)
      exact ⟨b, a, c⟩
    · obtain ⟨a, b, c⟩ := hall 3 (by omega) (by omega)
      exact ⟨b, a, c⟩
  · intro hrun
    have h0 := hrun 0 (by omega)
    refine ⟨by simpa using h0.1, by simpa using h0.2.2, ?_⟩
    apply (countMatches_ge4_iff old new e).mpr
    intro j h1 h3
    obtain ⟨a, b, c⟩ := hrun j (by omega)
    exact ⟨b, a, c⟩

theorem specMismatchStop_iff (old new : List Nat) (i : Nat) :
    specMismatchStop old new i ↔
      ¬(i < new.length ∧ i < old.length ∧ new.getD i 0 = old.getD i 0) := by
  unfold specMismatchStop
  constructor
  · rintro (h | h | h) ⟨c1, c2, c3⟩
    · omega
    · omega
    · exact h c3
  · intro h
    by_cases h1 : i < new.length
    · by_cases h2 : i < old.length
      · exact Or.inr (Or.inr (fun heq => h ⟨h1, h2, heq⟩))
      · exact Or.inr (Or.inl (by omega))
    · exact Or.inl (by omega)

theorem specRegionStop_iff (old new : List Nat) (e : Nat) :
    specRegionStop old new e ↔ (new.length ≤ e ∨ runCond old new e) := by
  unfold specRegionStop
  rw [runCond_iff_specRunOf4At]

theorem least_nat_unique (Q : Nat → Prop) (base r1 r2 : Nat)
    (h1a : base ≤ r1) (h1b : Q r1) (h1c : ∀ j, base ≤ j → j < r1 → ¬ Q j)
    (h2a : base ≤ r2) (h2b : Q r2) (h2c : ∀ j, base ≤ j → j < r2 → ¬ Q j) :
    r1 = r2 := by
  rcases Nat.lt_trichotomy r1 r2 with h | h | h
  · exact absurd h1b (h2c r1 h1a h)
  · exact h
  · exact absurd h2b (h1c r2 h2a h)

theorem leastFrom_ge (P : Nat → Prop) [DecidablePred P] (base : Nat)
    (h : ∃ n, P (base + n)) : base ≤ leastFrom P base h :=
  Nat.le_add_right _ _

theorem leastFrom_spec (P : Nat → Prop) [DecidablePred P] (base : Nat)
    (h : ∃ n, P (base + n)) : P (leastFrom P base h) :=
  Nat.find_spec h

theorem leastFrom_min (P : Nat → Prop) [DecidablePred P] (base : Nat)
    (h : ∃ n, P (base + n)) :
    ∀ j, base ≤ j → j < leastFrom P base h → ¬ P j := by
  intro j hj hlt hP
  unfold leastFrom at hlt
  have hk : j - base < Nat.find h := by omega
  have heq : j = base + (j - base) := by omega
  exact Nat.find_min h hk (heq ▸ hP)

theorem specNextMismatch_ge (old new : List Nat) (offset : Nat) :
    offset ≤ specNextMismatch old new offset :=
  leastFrom_ge _ _ _

theorem specNextMismatch_stop (old new : List Nat) (offset : Nat) :
    specMismatchStop old new (specNextMismatch old new offset) :=
  leastFrom_spec _ _ _

theorem specNextMismatch_min (old new : List Nat) (offset : Nat) :
    ∀ j, offset ≤ j → j < specNextMismatch old new offset →
      ¬ specMismatchStop old new j :=
  leastFrom_min _ _ _

theorem specRegionEnd_ge (old new : List Nat) (ds : Nat) :
    ds + 1 ≤ specRegionEnd old new ds :=
  leastFrom_ge _ _ _

theorem specRegionEnd_stop (old new : List Nat) (ds : Nat) :
    specRegionStop old new (specRegionEnd old new ds) :=
  leastFrom_spec _ _ _

theorem specRegionEnd_min (old new : List Nat) (ds : Nat) :
    ∀ j, ds + 1 ≤ j → j < specRegionEnd old new ds →
      ¬ specRegionStop old new j :=
  leastFrom_min _ _ _

theorem scanMatch_eq_specNextMismatch (old new : List Nat) (offset : Nat) :
    scanMatch old new offset = specNextMismatch old new offset := by
  apply least_nat_unique (specMismatchStop old new) offset
  · exact scanMatch_ge old new offset
  · exact (specMismatchStop_iff old new _).mpr (scanMatch_stop old new offset)
  · intro j hj hlt hspec
    exact (specMismatchStop_iff old new j).mp hspec
      (scanMatch_matched old new offset j hj hlt)
  · exact specNextMismatch_ge old new offset
  · exact specNextMismatch_stop old new offset
  · exact specNextMismatch_min old new offset

theorem scanEnd_eq_specRegionEnd (old new : List Nat) (ds : Nat) :
    scanEnd old new (ds + 1) = specRegionEnd old new ds := by
  apply least_nat_unique (specRegionStop old new) (ds + 1)
  · exact scanEnd_ge old new (ds + 1)
  · rw [specRegionStop_iff]
    exact scanEnd_stop old new (ds + 1)
  · intro j hj hlt hspec
    obtain ⟨hjlen, hnorun⟩ := scanEnd_no_run old new (ds + 1) j hj hlt
    rcases (specRegionStop_iff old new j).mp hspec with h | h
    · omega
    · exact hnorun h
  · exact specRegionEnd_ge old new ds
  · exact specRegionEnd_stop old new ds
  · exact specRegionEnd_min old new ds

theorem specDiffFuel_succ (old new : List Nat) (fuel offset : Nat) :
    specDiffFuel old new (fuel + 1) offset =
      if offset < new.length then
        (if specNextMismatch old new offset < new.length then
          (specNextMismatch old new offset,
            specRegionEnd old new (specNextMismatch old new offset) -
              specNextMismatch old new offset,
            (new.drop (specNextMismatch old new offset)).take
              (specRegionEnd old new (specNextMismatch old new offset) -
                specNextMismatch old new offset)) ::
            specDiffFuel old new fuel
              (specRegionEnd old new (specNextMismatch old new offset))
        else [])
      else [] := rfl

theorem diffLoopFuel_eq_specDiffFuel (old new : List Nat) :
    ∀ fuel offset,
      diffLoopFuel old new fuel offset = specDiffFuel old new fuel offset := by
  intro fuel
  induction fuel with
  | zero => intro offset; rfl
  | succ fuel ih =>
    intro offset
    rw [diffLoopFuel_succ, specDiffFuel_succ,
      scanMatch_eq_specNextMismatch old new offset,
      scanEnd_eq_specRegionEnd old new (specNextMismatch old new offset),
      ih (specRegionEnd old new (specNextMismatch old new offset))]

/-- Claim C3: the entry list `create_binary_patch` collects equals, for
every pair of byte sequences, the entry list described by the spec's
diff narrative: a single left-to-right pass that, at each mismatch (any
index at or beyond the source's length counting as a mismatch), extends
the changed region exactly to the start of the first run of at least 4
consecutive in-bounds agreeing positions (or to the end of the target),
emits the entry (region start in target, region length, target's bytes
over the region), and resumes at the region's end. -/
theorem diff_matches_spec :
    ∀ old new : List Nat, diffEntries old new = specDiffEntries old new :=
  fun old new => diffLoopFuel_eq_specDiffFuel old new _ 0
